import Mathlib

/-!
Verification of the TAPjack blackjack controller (src/TAPjack.c) against its
natural-language specification.  The game-logic core is shallowly embedded:
C ints become `ℤ`/`ℕ`, the fixed 12-slot hand arrays become length-12 lists
written through `List.set`, the 52-card global deck arrays (`rankG`/`suitG`)
plus cursor `indexG` become a `Fin 52 → Card` function plus a `ℕ` cursor, and
the display/delay calls (pure output) are dropped.  Distance samples are exact
rationals; the zone constants are integral so every comparison in the source
is exact.
-/

namespace TAPjack

/- Constants from the source header (`#define` block). -/
def THRESHOLD : ℕ := 200
def WIDTH : ℚ := 22
def DIST_HIT : ℚ := 8
def DIST_STAY : ℚ := 35
def HIT : ℕ := 1
def STAY : ℕ := 2
def NOACTION : ℕ := 3
def SINGLEDECK : ℕ := 52
def MAXHAND : ℕ := 12

/-- One playing card: rank (1 = Ace, 2..9, 10 = T, 11 = J, 12 = Q, 13 = K)
and suit character ('h', 'd', 'c', 's'). -/
abbrev Card : Type := ℕ × Char

/-- The C `struct hand`: fixed 12-slot `rank`/`suit`/`isFaceDown` arrays are
length-12 lists (writes go through `List.set` at indices < 12, reads through
`getD`, matching in-bounds array access), plus the derived fields.
`handvalue` is a C `int`, so `ℤ`; `soft` counts Aces still worth 11 and the
code keeps it nonnegative, so `ℕ`. -/
structure hand where
  rank : List ℕ
  suit : List Char
  isFaceDown : List Bool
  handsize : ℕ
  handvalue : ℤ
  busted : Bool
  soft : ℕ
  empty : Bool
deriving DecidableEq

/-- `emptyHand`: zero every array slot and reset the derived fields. -/
def emptyHand : hand :=
  { rank := List.replicate 12 0
  , suit := List.replicate 12 (Char.ofNat 0)
  , isFaceDown := List.replicate 12 false
  , handsize := 0
  , handvalue := 0
  , busted := false
  , soft := 0
  , empty := true }

/-- The global deck: `rankG`/`suitG` as one array of 52 cards, and the
cursor `indexG` of the next undealt card. -/
structure deckT where
  cards : Fin 52 → Card
  idx : ℕ

/-- Body of `dealCard` after its guard: write the card at slot `handsize`,
bump `handsize`, add the rank's value (Ace → +11 and `soft++`, 10/J/Q/K →
+10, else +rank), then if the value exceeds 21 either reinterpret one soft
Ace (`-10`, `soft--`) or set `busted`; finally clear `empty`. -/
def addCard (p : hand) (r : ℕ) (s : Char) : hand :=
  let p1 : hand :=
    { p with
        rank := p.rank.set p.handsize r
      , suit := p.suit.set p.handsize s
      , handsize := p.handsize + 1 }
  let v : ℤ :=
    p.handvalue +
      (if r = 1 then 11
       else if r = 10 ∨ r = 11 ∨ r = 12 ∨ r = 13 then 10
       else (r : ℤ))
  let sc : ℕ := if r = 1 then p.soft + 1 else p.soft
  let p2 : hand := { p1 with handvalue := v, soft := sc }
  let p3 : hand :=
    if 21 < p2.handvalue then
      if 0 < p2.soft then
        { p2 with handvalue := p2.handvalue - 10, soft := p2.soft - 1 }
      else { p2 with busted := true }
    else p2
  { p3 with empty := false }

/-- `dealCard`: if the deck cursor is past the deck or the hand is full, send
the diagnostic and abandon the deal (the `Bool` result records that the error
message was sent; hand and deck are returned untouched).  Otherwise deal the
card at the cursor and advance the cursor. -/
def dealCard (p : hand) (st : deckT) : hand × deckT × Bool :=
  if h : SINGLEDECK ≤ st.idx ∨ MAXHAND ≤ p.handsize then (p, st, true)
  else
    let c : Card := st.cards ⟨st.idx, by simp only [SINGLEDECK, MAXHAND] at h; omega⟩
    (addCard p c.1 c.2, { st with idx := st.idx + 1 }, false)

/-- Deal `n` cards in a row to one hand (the caller-side loop shape used for
the opening deal and for replaying a hand's card sequence). -/
def dealN : ℕ → hand → deckT → hand × deckT
  | 0, p, st => (p, st)
  | n + 1, p, st =>
      let r := dealCard p st
      dealN n r.1 r.2.1

/-- A deck whose card array is read off a list (padding with a zero card);
used to build concrete decks for evaluation. -/
def deckOfList (l : List Card) : deckT :=
  { cards := fun i => l.getD (i : ℕ) (0, Char.ofNat 0), idx := 0 }

/-- `initDeck`: card `i` gets rank `i % 13 + 1`; suits by index range exactly
as the source's cascading comparisons against `3*13-1`, `2*13-1`, `13-1`
(spades for 0..12, clubs 13..25, diamonds 26..38, hearts 39..51).  Cursor
reset to 0. -/
def initDeck : deckT :=
  { cards := fun i =>
      ((i : ℕ) % 13 + 1,
        if 3 * 13 - 1 < (i : ℕ) then 'h'
        else if 2 * 13 - 1 < (i : ℕ) then 'd'
        else if 13 - 1 < (i : ℕ) then 'c'
        else 's')
  , idx := 0 }

/-- One iteration of the shuffle loop: exchange positions `i` and
`rand() % 52` (the three-assignment temp dance in the source is exactly the
transposition of the two entries, also when the indices coincide). -/
def swapStep (rands : ℕ → ℕ) (c : Fin 52 → Card) (i : Fin 52) : Fin 52 → Card :=
  c ∘ Equiv.swap i ⟨rands (i : ℕ) % 52, Nat.mod_lt _ (by norm_num)⟩

/-- `shuffleDeck`: reset the cursor, then for `i = 0..51` swap entry `i` with
entry `rand() % 52`; `rands k` stands for the value of the `k`-th `rand()`
call. -/
def shuffleDeck (rands : ℕ → ℕ) (st : deckT) : deckT :=
  { cards := (List.finRange 52).foldl (swapStep rands) st.cards
  , idx := 0 }

/-- The multiset of (rank, suit) pairs held in a 52-entry card array. -/
def msOf (c : Fin 52 → Card) : Multiset Card := (List.ofFn c : Multiset Card)

/-- Modelled from the spec's words for claim C7 (the comparison side of the
refinement): the 52 standard cards, ranks 1..13 once for each of the four
suits. -/
def standardDeckSpec : Multiset Card :=
  (((List.range 13).map (fun r => (r + 1, 's')) ++
    (List.range 13).map (fun r => (r + 1, 'c')) ++
    (List.range 13).map (fun r => (r + 1, 'd')) ++
    (List.range 13).map (fun r => (r + 1, 'h')) : List Card) : Multiset Card)

/-- The dealer loop's drawing condition: not busted, and value below 17 or
exactly 17 with a soft Ace (`dealer.soft` is a C truthiness test, i.e.
`soft ≠ 0`). -/
def dealerHits (h : hand) : Bool :=
  !h.busted &&
    (decide (h.handvalue < 17) ||
      (decide (h.handvalue = 17) && decide (h.soft ≠ 0)))

/-- The dealer's drawing loop: while the drawing condition holds, deal one
card to the dealer from the deck cursor.  `fuel` bounds the number of
iterations (the C loop has no bound; every claim about the loop's stopping
state is conditioned on the loop having stopped). -/
def dealerPlay : ℕ → hand → deckT → hand × deckT
  | 0, h, st => (h, st)
  | fuel + 1, h, st =>
      if dealerHits h then
        let r := dealCard h st
        dealerPlay fuel r.1 r.2.1
      else (h, st)

/-- Per-hand outcome messages of `dispResults`. -/
inductive Outcome where
  | Won
  | Lost
  | Pushed
  | Err
deriving DecidableEq

/-- The per-hand branch cascade of `dispResults`, in source order: hand
busted → LOST; value equal to dealer's → PUSHED; value below dealer's and
dealer not busted → LOST; value above dealer's or dealer busted → WON;
otherwise the "ERROR in dispResults()" message. -/
def outcomeOf (pBusted : Bool) (pv : ℤ) (dBusted : Bool) (dv : ℤ) : Outcome :=
  if pBusted then Outcome.Lost
  else if pv = dv then Outcome.Pushed
  else if pv < dv ∧ dBusted = false then Outcome.Lost
  else if dv < pv ∨ dBusted = true then Outcome.Won
  else Outcome.Err

/-- The card-moving half of `split` (everything before the two `dealCard`
calls): read the second card of the primary hand, copy it into slot 0 of the
secondary hand, bump/drop the hand sizes, move the raw rank value between
the `handvalue` fields, and overwrite both values with 11 (and both soft
counts with 1) when the moved card is an Ace. -/
def splitMove (pA pB : hand) : hand × hand :=
  let cardR : ℕ := pA.rank.getD 1 0
  let cardS : Char := pA.suit.getD 1 (Char.ofNat 0)
  let pB1 : hand :=
    { pB with
        rank := pB.rank.set 0 cardR
      , suit := pB.suit.set 0 cardS
      , handsize := pB.handsize + 1
      , handvalue := pB.handvalue + (cardR : ℤ) }
  let pA1 : hand :=
    { pA with
        handsize := pA.handsize - 1
      , handvalue := pA.handvalue - (cardR : ℤ) }
  if cardR = 1 then
    ({ pA1 with soft := 1, handvalue := 11 }, { pB1 with soft := 1, handvalue := 11 })
  else (pA1, pB1)

/-- `split`: move the second card of the primary hand into the secondary
hand, then deal one card to each of the two hands. -/
def split (pA pB : hand) (st : deckT) : hand × hand × deckT :=
  let m := splitMove pA pB
  let rA := dealCard m.1 st
  let rB := dealCard m.2 rA.2.1
  (rA.1, rB.1, rB.2.1)

/-- The zone tests of one `USS_move` loop iteration: strictly inside
`(DIST_HIT, DIST_HIT + WIDTH)` → HIT, else strictly inside
`(DIST_STAY, DIST_STAY + WIDTH)` → STAY, else NOACTION. -/
def classify (d : ℚ) : ℕ :=
  if DIST_HIT < d ∧ d < DIST_HIT + WIDTH then HIT
  else if DIST_STAY < d ∧ d < DIST_STAY + WIDTH then STAY
  else NOACTION

/-- The `while(1)` loop of `USS_move`, with the three counters as state.
The `distance` variable is read once before the loop in the source, so every
iteration classifies the same sample `d`.  `fuel` bounds the iterations;
`none` means the loop has not returned within `fuel` iterations. -/
def USS_moveN : ℕ → ℕ → ℕ → ℕ → ℚ → Option ℕ
  | 0, _, _, _, _ => none
  | fuel + 1, cH, cS, cN, d =>
      if DIST_HIT < d ∧ d < DIST_HIT + WIDTH then
        (if THRESHOLD < cH + 1 then some HIT else USS_moveN fuel (cH + 1) 0 0 d)
      else if DIST_STAY < d ∧ d < DIST_STAY + WIDTH then
        (if THRESHOLD < cS + 1 then some STAY else USS_moveN fuel 0 (cS + 1) 0 d)
      else
        (if THRESHOLD < cN + 1 then some NOACTION else USS_moveN fuel 0 0 (cN + 1) d)

/-- `USS_move` on the one sample it reads: run the loop from zero counters.
`THRESHOLD + 1` iterations always suffice (proved below), so the default is
never taken. -/
def USS_move (d : ℚ) : ℕ := (USS_moveN (THRESHOLD + 1) 0 0 0 d).getD 0

/-- The second `while` loop of `userInput`: call `USS_move` on successive
samples until it reports STAY or HIT, and return that action. -/
def userInputGo : List ℚ → Option ℕ
  | [] => none
  | d :: rest =>
      let m := USS_move d
      if m = STAY then some STAY
      else if m = HIT then some HIT
      else userInputGo rest

/-- `userInput`: first loop while `USS_move() != NOACTION` (forcing the
gesture area to clear), then loop until a HIT or STAY report.  The stream
argument lists the successive distance samples; `none` means the call is
still blocked when the stream ends. -/
def userInput : List ℚ → Option ℕ
  | [] => none
  | d :: rest =>
      if USS_move d ≠ NOACTION then userInput rest
      else userInputGo rest

/- Helper lemmas (shared): the `USS_move` loop on a fixed sample keeps
incrementing the counter of that sample's zone, so it returns the zone as
soon as that counter passes `THRESHOLD`. -/

lemma USS_moveN_hit (d : ℚ) (hd : DIST_HIT < d ∧ d < DIST_HIT + WIDTH) :
    ∀ fuel cH cS cN : ℕ,
      USS_moveN fuel cH cS cN d =
        if 0 < fuel ∧ THRESHOLD < cH + fuel then some HIT else none := by
  intro fuel
  induction fuel with
  | zero => intro cH cS cN; simp [USS_moveN]
  | succ n ih =>
      intro cH cS cN
      rw [USS_moveN, if_pos hd]
      by_cases h1 : THRESHOLD < cH + 1
      · rw [if_pos h1, if_pos (by omega)]
      · rw [if_neg h1, ih]
        by_cases h2 : 0 < n ∧ THRESHOLD < cH + 1 + n
        · rw [if_pos h2, if_pos (by omega)]
        · rw [if_neg h2, if_neg (by omega)]

lemma USS_moveN_stay (d : ℚ) (hd1 : ¬(DIST_HIT < d ∧ d < DIST_HIT + WIDTH))
    (hd2 : DIST_STAY < d ∧ d < DIST_STAY + WIDTH) :
    ∀ fuel cH cS cN : ℕ,
      USS_moveN fuel cH cS cN d =
        if 0 < fuel ∧ THRESHOLD < cS + fuel then some STAY else none := by
  intro fuel
  induction fuel with
  | zero => intro cH cS cN; simp [USS_moveN]
  | succ n ih =>
      intro cH cS cN
      rw [USS_moveN, if_neg hd1, if_pos hd2]
      by_cases h1 : THRESHOLD < cS + 1
      · rw [if_pos h1, if_pos (by omega)]
      · rw [if_neg h1, ih]
        by_cases h2 : 0 < n ∧ THRESHOLD < cS + 1 + n
        · rw [if_pos h2, if_pos (by omega)]
        · rw [if_neg h2, if_neg (by omega)]

lemma USS_moveN_none (d : ℚ) (hd1 : ¬(DIST_HIT < d ∧ d < DIST_HIT + WIDTH))
    (hd2 : ¬(DIST_STAY < d ∧ d < DIST_STAY + WIDTH)) :
    ∀ fuel cH cS cN : ℕ,
      USS_moveN fuel cH cS cN d =
        if 0 < fuel ∧ THRESHOLD < cN + fuel then some NOACTION else none := by
  intro fuel
  induction fuel with
  | zero => intro cH cS cN; simp [USS_moveN]
  | succ n ih =>
      intro cH cS cN
      rw [USS_moveN, if_neg hd1, if_neg hd2]
      by_cases h1 : THRESHOLD < cN + 1
      · rw [if_pos h1, if_pos (by omega)]
      · rw [if_neg h1, ih]
        by_cases h2 : 0 < n ∧ THRESHOLD < cN + 1 + n
        · rw [if_pos h2, if_pos (by omega)]
        · rw [if_neg h2, if_neg (by omega)]

/-- With `THRESHOLD + 1` iterations of fuel the loop returns the sample's
zone; with `THRESHOLD` it has not yet returned. -/
lemma USS_moveN_runs (d : ℚ) :
    USS_moveN (THRESHOLD + 1) 0 0 0 d = some (classify d) ∧
      USS_moveN THRESHOLD 0 0 0 d = none := by
  unfold classify
  by_cases h1 : DIST_HIT < d ∧ d < DIST_HIT + WIDTH
  · rw [USS_moveN_hit d h1, USS_moveN_hit d h1, if_pos h1,
      if_pos (by constructor <;> omega), if_neg (by omega)]
    exact ⟨rfl, rfl⟩
  · by_cases h2 : DIST_STAY < d ∧ d < DIST_STAY + WIDTH
    · rw [USS_moveN_stay d h1 h2, USS_moveN_stay d h1 h2, if_neg h1, if_pos h2,
        if_pos (by constructor <;> omega), if_neg (by omega)]
      exact ⟨rfl, rfl⟩
    · rw [USS_moveN_none d h1 h2, USS_moveN_none d h1 h2, if_neg h1, if_neg h2,
        if_pos (by constructor <;> omega), if_neg (by omega)]
      exact ⟨rfl, rfl⟩

/-- `USS_move` computes the zone of its single sample. -/
lemma USS_move_eq (d : ℚ) : USS_move d = classify d := by
  unfold USS_move
  rw [(USS_moveN_runs d).1]
  rfl

/-- `classify` only produces the three action codes. -/
lemma classify_cases (d : ℚ) :
    classify d = HIT ∨ classify d = STAY ∨ classify d = NOACTION := by
  unfold classify
  split_ifs <;> simp

/- Helper lemmas: projections of `addCard` and the two branches of
`dealCard`. -/

lemma addCard_handsize (p : hand) (r : ℕ) (s : Char) :
    (addCard p r s).handsize = p.handsize + 1 := by
  unfold addCard; dsimp only; split_ifs <;> rfl

lemma addCard_empty (p : hand) (r : ℕ) (s : Char) :
    (addCard p r s).empty = false := by
  unfold addCard; rfl

lemma addCard_rank (p : hand) (r : ℕ) (s : Char) :
    (addCard p r s).rank = p.rank.set p.handsize r := by
  unfold addCard; dsimp only; split_ifs <;> rfl

lemma addCard_suit (p : hand) (r : ℕ) (s : Char) :
    (addCard p r s).suit = p.suit.set p.handsize s := by
  unfold addCard; dsimp only; split_ifs <;> rfl

lemma dealCard_fail (p : hand) (st : deckT)
    (h : 52 ≤ st.idx ∨ 12 ≤ p.handsize) :
    dealCard p st = (p, st, true) := by
  unfold dealCard
  rw [dif_pos (by simp only [SINGLEDECK, MAXHAND]; exact h)]

lemma dealCard_ok (p : hand) (st : deckT) (h1 : st.idx < 52)
    (h2 : p.handsize < 12) :
    dealCard p st =
      (addCard p (st.cards ⟨st.idx, h1⟩).1 (st.cards ⟨st.idx, h1⟩).2,
        { st with idx := st.idx + 1 }, false) := by
  unfold dealCard
  rw [dif_neg (by simp only [SINGLEDECK, MAXHAND]; omega)]

/- Helper lemmas: each shuffle step is a transposition, so the deck's
multiset of cards never changes. -/

lemma msOf_swapStep (rands : ℕ → ℕ) (c : Fin 52 → Card) (i : Fin 52) :
    msOf (swapStep rands c i) = msOf c := by
  unfold swapStep msOf
  exact Multiset.coe_eq_coe.mpr (Equiv.Perm.ofFn_comp_perm _ c)

lemma msOf_foldl (rands : ℕ → ℕ) :
    ∀ (l : List (Fin 52)) (c : Fin 52 → Card),
      msOf (l.foldl (swapStep rands) c) = msOf c := by
  intro l
  induction l with
  | nil => intro c; rfl
  | cons i t ih => intro c; rw [List.foldl_cons, ih, msOf_swapStep]

/-- Claim C1 (code-bug evaluation): replaying `dealCard` over ranks
10, 10, Ace, Ace from the empty hand ends with `handvalue = 22` while
`busted` is still false.  `dealCard` reinterprets at most one soft Ace per
call, so an Ace dealt onto value 21 leaves 22 with `busted` unset — against
the claimed invariant (and the source's own comment that `busted` is true
exactly when the hand value is over 21). -/
theorem dealCard_softAce_gap :
    (dealN 4 emptyHand
      (deckOfList [(10, 's'), (10, 'h'), (1, 's'), (1, 'h')])).1.handvalue = 22 ∧
    (dealN 4 emptyHand
      (deckOfList [(10, 's'), (10, 'h'), (1, 's'), (1, 'h')])).1.busted = false := by
  decide

/-- Claim C7: after `initDeck` the deck is exactly the 52 standard cards
(each rank 1..13 of each suit once) with the cursor at 0, and every
`shuffleDeck` — for any sequence of `rand()` values — resets the cursor to 0
and permutes the card array without changing its multiset. -/
theorem deck_init_shuffle_correct :
    msOf initDeck.cards = standardDeckSpec ∧
    initDeck.idx = 0 ∧
    ∀ (rands : ℕ → ℕ) (st : deckT),
      (shuffleDeck rands st).idx = 0 ∧
      msOf (shuffleDeck rands st).cards = msOf st.cards := by
  refine ⟨by decide, rfl, fun rands st => ⟨rfl, msOf_foldl rands _ _⟩⟩

/-- Claim C10: a `USS_move` call reads exactly one distance sample (the
single `USS_distance()` call before the loop) and its result is a function
of that sample alone: the loop returns the sample's zone (HIT strictly
inside `(DIST_HIT, DIST_HIT + WIDTH)`, STAY strictly inside
`(DIST_STAY, DIST_STAY + WIDTH)`, else NOACTION) after exactly
`THRESHOLD + 1` classifications of that same sample — after `THRESHOLD`
classifications it has not yet returned. -/
theorem USS_move_single_sample (d : ℚ) :
    USS_moveN (THRESHOLD + 1) 0 0 0 d = some (classify d) ∧
    USS_moveN THRESHOLD 0 0 0 d = none ∧
    USS_move d = classify d :=
  ⟨(USS_moveN_runs d).1, (USS_moveN_runs d).2, USS_move_eq d⟩

/- Helper lemmas: the dealer loop's two step shapes and its stopping
condition. -/

lemma dealerPlay_stop (fuel : ℕ) (h : hand) (st : deckT)
    (hh : dealerHits h = false) :
    dealerPlay fuel h st = (h, st) := by
  cases fuel with
  | zero => rfl
  | succ n => rw [dealerPlay, if_neg (by simp [hh])]

lemma dealerPlay_draw (fuel : ℕ) (h : hand) (st : deckT)
    (hh : dealerHits h = true) :
    dealerPlay (fuel + 1) h st =
      dealerPlay fuel (dealCard h st).1 (dealCard h st).2.1 := by
  rw [dealerPlay, if_pos (by simp [hh])]

lemma dealerHits_false (h : hand) (hh : dealerHits h = false)
    (hb : h.busted = false) :
    17 ≤ h.handvalue ∧ ¬(h.handvalue = 17 ∧ h.soft ≠ 0) := by
  unfold dealerHits at hh
  rw [hb] at hh
  simp only [Bool.not_false, Bool.true_and, Bool.or_eq_false_iff,
    Bool.and_eq_false_iff, decide_eq_false_iff_not, not_lt] at hh
  obtain ⟨hv, hs⟩ := hh
  refine ⟨hv, ?_⟩
  rintro ⟨h17, hs0⟩
  rcases hs with h | h
  · exact h h17
  · exact hs0 (by simpa using h)

/-- Claim C3: the dealer's loop draws one more card exactly when the dealer
is not busted and (value < 17, or value = 17 with a soft Ace), and stops
otherwise; hence whenever the loop has stopped without busting, the dealer's
value is at least 17 and is not a soft 17 (it never stops on a soft 17). -/
theorem dealer_policy_correct (fuel : ℕ) (h : hand) (st : deckT) :
    (dealerHits h = true →
      dealerPlay (fuel + 1) h st =
        dealerPlay fuel (dealCard h st).1 (dealCard h st).2.1) ∧
    (dealerHits h = false → dealerPlay fuel h st = (h, st)) ∧
    (dealerHits (dealerPlay fuel h st).1 = false →
      (dealerPlay fuel h st).1.busted = false →
      17 ≤ (dealerPlay fuel h st).1.handvalue ∧
      ¬((dealerPlay fuel h st).1.handvalue = 17 ∧
        (dealerPlay fuel h st).1.soft ≠ 0)) :=
  ⟨dealerPlay_draw fuel h st, dealerPlay_stop fuel h st, dealerHits_false _⟩

/-- Deck for the dealer-policy witness: the dealer holds Ace + 6 (a soft 17)
and the next card is a King. -/
def dealerDeckA6 : deckT := deckOfList [(1, 's'), (6, 'h'), (13, 'd')]

def dealerHandA6 : hand := (dealN 2 emptyHand dealerDeckA6).1

def dealerDeckA6b : deckT := (dealN 2 emptyHand dealerDeckA6).2

/-- Witness for C3: on a soft 17 (Ace + 6) the loop draws (here a King),
then stops on the resulting hard 17. -/
theorem dealer_policy_correct_witness :
    dealerPlay 3 dealerHandA6 dealerDeckA6b =
      dealerPlay 2 (dealCard dealerHandA6 dealerDeckA6b).1
        (dealCard dealerHandA6 dealerDeckA6b).2.1 ∧
    17 ≤ (dealerPlay 3 dealerHandA6 dealerDeckA6b).1.handvalue ∧
    ¬((dealerPlay 3 dealerHandA6 dealerDeckA6b).1.handvalue = 17 ∧
      (dealerPlay 3 dealerHandA6 dealerDeckA6b).1.soft ≠ 0) :=
  ⟨(dealer_policy_correct 2 dealerHandA6 dealerDeckA6b).1 (by decide),
   ((dealer_policy_correct 3 dealerHandA6 dealerDeckA6b).2.2 (by decide)
      (by decide)).1,
   ((dealer_policy_correct 3 dealerHandA6 dealerDeckA6b).2.2 (by decide)
      (by decide)).2⟩

/-- Claim C2: `dispResults` per seat-hand, against blackjack-consistent
values (a non-busted hand's value is at most 21; a busted dealer's value
exceeds 21): a busted hand is always LOST whatever the dealer has; with
neither side busted the hand is WON iff value exceeds the dealer's, PUSHED
iff equal, LOST iff below; and a non-busted hand is WON whenever the dealer
busted. -/
theorem dispResults_outcome_correct (pb db : Bool) (pv dv : ℤ)
    (hp : pb = false → pv ≤ 21) (hd : db = true → 21 < dv) :
    (pb = true → outcomeOf pb pv db dv = Outcome.Lost) ∧
    (pb = false → db = false →
      ((outcomeOf pb pv db dv = Outcome.Won ↔ dv < pv) ∧
       (outcomeOf pb pv db dv = Outcome.Pushed ↔ pv = dv) ∧
       (outcomeOf pb pv db dv = Outcome.Lost ↔ pv < dv))) ∧
    (pb = false → db = true → outcomeOf pb pv db dv = Outcome.Won) := by
  refine ⟨fun h => ?_, fun h1 h2 => ?_, fun h1 h2 => ?_⟩
  · simp [outcomeOf, h]
  · subst h1; subst h2
    have e : outcomeOf false pv false dv =
        (if pv = dv then Outcome.Pushed
         else if pv < dv then Outcome.Lost
         else if dv < pv then Outcome.Won
         else Outcome.Err) := by
      simp [outcomeOf]
    rw [e]
    rcases lt_trichotomy pv dv with hlt | heq | hgt
    · rw [if_neg (by omega), if_pos hlt]
      exact ⟨⟨fun hx => absurd hx (by decide), fun hx => absurd hx (by omega)⟩,
        ⟨fun hx => absurd hx (by decide), fun hx => absurd hx (by omega)⟩,
        ⟨fun hx => hlt, fun hx => rfl⟩⟩
    · rw [if_pos heq]
      exact ⟨⟨fun hx => absurd hx (by decide), fun hx => absurd hx (by omega)⟩,
        ⟨fun hx => heq, fun hx => rfl⟩,
        ⟨fun hx => absurd hx (by decide), fun hx => absurd hx (by omega)⟩⟩
    · rw [if_neg (by omega), if_neg (by omega), if_pos hgt]
      exact ⟨⟨fun hx => hgt, fun hx => rfl⟩,
        ⟨fun hx => absurd hx (by decide), fun hx => absurd hx (by omega)⟩,
        ⟨fun hx => absurd hx (by decide), fun hx => absurd hx (by omega)⟩⟩
  · subst h1; subst h2
    have h21 : pv ≤ 21 := hp rfl
    have h22 : 21 < dv := hd rfl
    unfold outcomeOf
    rw [if_neg (by simp), if_neg (by omega), if_neg (by simp), if_pos (by simp)]

/-- Witness for C2: a non-busted 18 beats a busted dealer on 25; a busted 22
loses to a dealer 20. -/
theorem dispResults_outcome_correct_witness :
    outcomeOf false 18 true 25 = Outcome.Won ∧
    outcomeOf true 22 false 20 = Outcome.Lost :=
  ⟨(dispResults_outcome_correct false true 18 25 (by decide) (by decide)).2.2
      rfl rfl,
   (dispResults_outcome_correct true false 22 20 (by decide) (by decide)).1
      rfl⟩

/-- Claim C8: `dealCard` fails exactly under its guard — deck cursor at (or
past) 52, or hand already holding 12 cards — and then only sends the
diagnostic, leaving the whole hand, the deck array and the deck cursor
untouched; on success it sends no diagnostic, writes the card at the
cursor into the next hand slot, bumps the hand size, advances the cursor by
one and clears the `empty` flag. -/
theorem dealCard_spec (p : hand) (st : deckT) :
    (52 ≤ st.idx ∨ 12 ≤ p.handsize → dealCard p st = (p, st, true)) ∧
    (∀ (h1 : st.idx < 52) (h2 : p.handsize < 12),
      (dealCard p st).2.2 = false ∧
      (dealCard p st).2.1.idx = st.idx + 1 ∧
      (dealCard p st).2.1.cards = st.cards ∧
      (dealCard p st).1.handsize = p.handsize + 1 ∧
      (dealCard p st).1.rank = p.rank.set p.handsize (st.cards ⟨st.idx, h1⟩).1 ∧
      (dealCard p st).1.suit = p.suit.set p.handsize (st.cards ⟨st.idx, h1⟩).2 ∧
      (dealCard p st).1.empty = false) := by
  constructor
  · exact dealCard_fail p st
  · intro h1 h2
    rw [dealCard_ok p st h1 h2]
    exact ⟨rfl, rfl, rfl, addCard_handsize _ _ _, addCard_rank _ _ _,
      addCard_suit _ _ _, addCard_empty _ _ _⟩

/-- Witness for C8: failure at cursor 52 returns the state untouched with
the diagnostic flag; the first deal from the fresh deck succeeds, advances
the cursor to 1 and fills one hand slot. -/
theorem dealCard_spec_witness :
    dealCard emptyHand { cards := initDeck.cards, idx := 52 } =
      (emptyHand, { cards := initDeck.cards, idx := 52 }, true) ∧
    (dealCard emptyHand initDeck).2.2 = false ∧
    (dealCard emptyHand initDeck).2.1.idx = 0 + 1 ∧
    (dealCard emptyHand initDeck).1.handsize = 0 + 1 ∧
    (dealCard emptyHand initDeck).1.empty = false :=
  ⟨(dealCard_spec emptyHand { cards := initDeck.cards, idx := 52 }).1
      (Or.inl (by decide)),
   ((dealCard_spec emptyHand initDeck).2 (by decide) (by decide)).1,
   ((dealCard_spec emptyHand initDeck).2 (by decide) (by decide)).2.1,
   ((dealCard_spec emptyHand initDeck).2 (by decide) (by decide)).2.2.2.1,
   ((dealCard_spec emptyHand initDeck).2 (by decide) (by decide)).2.2.2.2.2.2⟩

/-- Helper: the commit loop of `userInput` returns only HIT or STAY, after
skipping a (possibly empty) run of NOACTION reports. -/
lemma userInputGo_spec (s : List ℚ) (a : ℕ) (h : userInputGo s = some a) :
    (a = HIT ∨ a = STAY) ∧
    ∃ mid c rest,
      s = mid ++ c :: rest ∧
      (∀ x ∈ mid, USS_move x = NOACTION) ∧
      USS_move c = a := by
  induction s with
  | nil => simp [userInputGo] at h
  | cons d rest ih =>
      rw [userInputGo] at h
      by_cases hS : USS_move d = STAY
      · rw [if_pos hS] at h
        obtain rfl : STAY = a := Option.some.inj h
        exact ⟨Or.inr rfl, [], d, rest, rfl, by simp, hS⟩
      · rw [if_neg hS] at h
        by_cases hH : USS_move d = HIT
        · rw [if_pos hH] at h
          obtain rfl : HIT = a := Option.some.inj h
          exact ⟨Or.inl rfl, [], d, rest, rfl, by simp, hH⟩
        · rw [if_neg hH] at h
          obtain ⟨hav, mid, c, r2, heq, hmid, hc⟩ := ih h
          have hdN : USS_move d = NOACTION := by
            rw [USS_move_eq] at hS hH ⊢
            rcases classify_cases d with hx | hx | hx
            · exact absurd hx hH
            · exact absurd hx hS
            · exact hx
          refine ⟨hav, d :: mid, c, r2, by rw [heq]; rfl, ?_, hc⟩
          intro x hx
          rcases List.mem_cons.mp hx with hx | hx
          · rw [hx]; exact hdN
          · exact hmid x hx

/-- Claim C9: whenever `userInput` returns, it returns HIT or STAY, and its
consumed samples decompose as a clear-then-commit handshake: a run of
non-NOACTION reports, then one NOACTION report (phase one ends), then a run
of NOACTION reports, then the sample whose report is the returned action —
so a decision is never returned without a preceding NOACTION report in the
same call. -/
theorem userInput_two_phase_handshake (s : List ℚ) (a : ℕ)
    (h : userInput s = some a) :
    (a = HIT ∨ a = STAY) ∧
    ∃ pre n mid c rest,
      s = pre ++ n :: (mid ++ c :: rest) ∧
      (∀ x ∈ pre, USS_move x ≠ NOACTION) ∧
      USS_move n = NOACTION ∧
      (∀ x ∈ mid, USS_move x = NOACTION) ∧
      USS_move c = a := by
  induction s with
  | nil => simp [userInput] at h
  | cons d rest ih =>
      rw [userInput] at h
      by_cases hN : USS_move d ≠ NOACTION
      · rw [if_pos hN] at h
        obtain ⟨hav, pre, n, mid, c, r2, heq, hpre, hn, hmid, hc⟩ := ih h
        refine ⟨hav, d :: pre, n, mid, c, r2, by rw [heq]; rfl, ?_, hn, hmid, hc⟩
        intro x hx
        rcases List.mem_cons.mp hx with hx | hx
        · rw [hx]; exact hN
        · exact hpre x hx
      · rw [if_neg hN] at h
        push_neg at hN
        obtain ⟨hav, mid, c, r2, heq, hmid, hc⟩ := userInputGo_spec rest a h
        exact ⟨hav, [], d, mid, c, r2, by rw [heq]; rfl, by simp, hN, hmid, hc⟩

/- Sample-level evaluations shared by the gesture witnesses: 20 is in the
HIT zone (8, 30), 15 is in the HIT zone, 100 is in neither zone. -/

lemma USS_move_20 : USS_move 20 = HIT := by
  rw [USS_move_eq]
  unfold classify
  rw [if_pos (by constructor <;> norm_num [DIST_HIT, WIDTH])]

lemma USS_move_15 : USS_move 15 = HIT := by
  rw [USS_move_eq]
  unfold classify
  rw [if_pos (by constructor <;> norm_num [DIST_HIT, WIDTH])]

lemma USS_move_100 : USS_move 100 = NOACTION := by
  rw [USS_move_eq]
  unfold classify
  rw [if_neg (by norm_num [DIST_HIT, WIDTH]),
    if_neg (by norm_num [DIST_STAY, WIDTH])]

/-- Witness for C9: on samples 20 (HIT zone), 100 (clear), 15 (HIT zone) the
call returns HIT with the handshake decomposition. -/
theorem userInput_two_phase_handshake_witness :
    ((1 : ℕ) = HIT ∨ (1 : ℕ) = STAY) ∧
    ∃ pre n mid c rest,
      ([20, 100, 15] : List ℚ) = pre ++ n :: (mid ++ c :: rest) ∧
      (∀ x ∈ pre, USS_move x ≠ NOACTION) ∧
      USS_move n = NOACTION ∧
      (∀ x ∈ mid, USS_move x = NOACTION) ∧
      USS_move c = 1 :=
  userInput_two_phase_handshake [20, 100, 15] 1 (by
    simp [userInput, userInputGo, USS_move_20, USS_move_100, USS_move_15,
      HIT, STAY, NOACTION])

/-- Claim C4 (code-bug evaluation): on the stream 20, 100, 20, 100, 20 —
alternating every sample between the HIT zone and the dead zone —
`userInput` commits HIT on the third sample.  `USS_move` reads its sample
once, before its loop, so each call reports the zone of that one sample
after `THRESHOLD + 1` classifications of it; the claimed run-length counters
over successive samples do not exist, and an alternating stream commits
instead of never committing. -/
theorem userInput_alternating_commits :
    userInput [20, 100, 20, 100, 20] = some HIT := by
  simp [userInput, userInputGo, USS_move_20, USS_move_100, HIT, STAY, NOACTION]

/- Concrete state for the C5 evaluation: the primary hand is dealt King,
King; the next two deck cards (dealt by `split`) are a 5 and a 6. -/

def splitDeckKK : deckT := deckOfList [(13, 's'), (13, 'h'), (5, 'd'), (6, 'c')]

def splitHandKK : hand := (dealN 2 emptyHand splitDeckKK).1

def splitDeckKK2 : deckT := (dealN 2 emptyHand splitDeckKK).2

/-- Claim C5 (code-bug evaluation): splitting a King–King hand (scored 20)
moves the raw rank 13 between the `handvalue` fields instead of the card's
10-point scoring contribution: after the two one-card deals (a 5 and a 6)
the primary hand is worth 20 - 13 + 5 = 12 and the secondary 13 + 6 = 19,
where the claimed behaviour gives 10 + 5 = 15 and 10 + 6 = 16.  Both hands
do receive exactly one new card each. -/
theorem split_face_card_values :
    splitHandKK.handvalue = 20 ∧
    (split splitHandKK emptyHand splitDeckKK2).1.handvalue = 12 ∧
    (split splitHandKK emptyHand splitDeckKK2).2.1.handvalue = 19 ∧
    (split splitHandKK emptyHand splitDeckKK2).1.handsize = 2 ∧
    (split splitHandKK emptyHand splitDeckKK2).2.1.handsize = 2 := by
  decide

/- Concrete state for the C6 counterexample: the primary hand holds a King
and a 5 — two different ranks, so the split precondition fails. -/

def splitDeckMism : deckT := deckOfList [(13, 's'), (5, 'h'), (2, 'd'), (3, 'c')]

def splitHandMism : hand := (dealN 2 emptyHand splitDeckMism).1

def splitDeckMism2 : deckT := (dealN 2 emptyHand splitDeckMism).2

/-- Claim C6 counterexample: with first two ranks 13 and 5 the preconditions
are not met, yet `split` does not fail and does change hand state — the
previously empty secondary hand comes back nonempty, holding the moved 5. -/
theorem split_unchecked_cex :
    splitHandMism.rank.getD 0 0 ≠ splitHandMism.rank.getD 1 0 ∧
    (split splitHandMism emptyHand splitDeckMism2).2.1.empty = false ∧
    (split splitHandMism emptyHand splitDeckMism2).2.1.handsize = 2 ∧
    (split splitHandMism emptyHand splitDeckMism2).2.1 ≠ emptyHand := by
  decide

/-- Helper: the card move of `split` always drops one card from the primary
hand and adds one to the secondary hand, in both the Ace and non-Ace
branches. -/
lemma splitMove_handsize (pA pB : hand) :
    (splitMove pA pB).1.handsize = pA.handsize - 1 ∧
    (splitMove pA pB).2.handsize = pB.handsize + 1 := by
  unfold splitMove
  dsimp only
  split_ifs <;> exact ⟨rfl, rfl⟩

/-- Claim C6 amended: `split` performs no precondition check and can never
fail — even when the hand's first two ranks differ it unconditionally moves
the second card into the (previously empty) secondary hand and deals one new
card to each hand; the precondition is enforced only by `playTurn`'s
call-site guard (equal first two ranks and the one-shot `askSplit` flag). -/
theorem split_unconditional_move (pA pB : hand) (st : deckT)
    (hA : pA.handsize = 2) (hB : pB.handsize = 0)
    (hr : pA.rank.getD 0 0 ≠ pA.rank.getD 1 0) (hd : st.idx + 2 ≤ 52) :
    (split pA pB st).1.handsize = 2 ∧
    (split pA pB st).2.1.handsize = 2 ∧
    (split pA pB st).2.1.empty = false ∧
    (split pA pB st).2.2.idx = st.idx + 2 := by
  obtain ⟨e1, e2⟩ := splitMove_handsize pA pB
  rw [hA] at e1
  rw [hB] at e2
  unfold split
  dsimp only
  rw [dealCard_ok (splitMove pA pB).1 st (by omega) (by omega)]
  dsimp only
  rw [dealCard_ok (splitMove pA pB).2 { st with idx := st.idx + 1 }
    (by dsimp only; omega) (by omega)]
  dsimp only
  rw [addCard_handsize, addCard_handsize, addCard_empty, e1, e2]
  exact ⟨rfl, rfl, rfl, by omega⟩

/-- Witness for C6-as-amended: the concrete mismatched King-and-5 hand goes
through the unconditional move. -/
theorem split_unconditional_move_witness :
    (split splitHandMism emptyHand splitDeckMism2).1.handsize = 2 ∧
    (split splitHandMism emptyHand splitDeckMism2).2.1.handsize = 2 ∧
    (split splitHandMism emptyHand splitDeckMism2).2.1.empty = false ∧
    (split splitHandMism emptyHand splitDeckMism2).2.2.idx =
      splitDeckMism2.idx + 2 :=
  split_unconditional_move splitHandMism emptyHand splitDeckMism2
    (by decide) (by decide) (by decide) (by decide)

end TAPjack
